import Mathlib

/-!
Shallow embedding of the storage virtualization core of the repository
(pycosio): path resolution (`relpath`, `is_locator`, `split_locator`),
directory virtualization (`isdir`, `isfile`), listing (`list_objects`),
stat synthesis (`stat`), and the S3 backend's raw range read and
multipart-upload close logic.

Paths and header keys are modelled as lists of characters (`Str`), header
values as integers (sizes and epoch timestamps; date parsing is done by an
external library in the source and is out of scope).  Generators are
modelled as the list of yielded items followed by an optional error raised
after the last yielded item (`Gen`).  Fallible operations return `Except`.
-/

/-- Paths, keys and header field names: Python strings as char lists. -/
abbrev Str := List Char

/-- Converts a string literal to the `Str` model. -/
def s2l (x : String) : Str := x.data

/-- Header model: ordered field/value mapping (values as integers). -/
abbrev Header := List (Str × Int)

/-- Shared error taxonomy of the core plus backend-native leftovers.
`client` is an untranslated botocore `ClientError` with its error code;
`keyError` is a raw Python `KeyError`. -/
inductive Err where
  | notFound
  | permission
  | unsupported
  | keyError
  | client (code : Str)
deriving DecidableEq, Repr

/-- Python `x.lstrip('/')`. -/
def lstripSlash (x : Str) : Str := x.dropWhile (fun c => c = '/')

/-- Python `x.rstrip('/')`. -/
def rstripSlash (x : Str) : Str := (x.reverse.dropWhile (fun c => c = '/')).reverse

/-- Python `x.strip('/')`. -/
def stripSlash (x : Str) : Str := lstripSlash (rstripSlash x)

/-- Python `x[-1] == '/'` (False on the empty string, where Python raises). -/
def endsWithSlash (x : Str) : Bool := x.getLast? = some '/'

/-- Python `x.split(sep, 1)`, as the pair (before, after) around the first
occurrence of `sep`, or `none` when `sep` does not occur (the one-element
split result, whose index 1 raises `IndexError` in the source). -/
def splitFirst (sep : Str) : Str → Option (Str × Str)
  | [] => if sep.isPrefixOf ([] : Str) then some ([], []) else none
  | c :: rest =>
    if sep.isPrefixOf (c :: rest) then some ([], (c :: rest).drop sep.length)
    else (splitFirst sep rest).map (fun p => (c :: p.1, p.2))

/-- A configured root: either a literal string (matched by
`path.split(root, 1)`) or a compiled pattern (matched by
`root.split(path, maxsplit=1)`; a regex match is a slice of the subject,
so it is modelled by the end index of the first match). -/
inductive Root where
  | lit (r : Str)
  | pat (matchEnd : Str → Option Nat)

/-- The split a root produces on a path: (consumed part, remainder),
or `none` when the root does not match. -/
def matchRoot (r : Root) (path : Str) : Option (Str × Str) :=
  match r with
  | .lit x => splitFirst x path
  | .pat f => (f path).map (fun n => (path.take n, path.drop n))

/-- `SystemBase.relpath`: tries each root in order; on the first match
returns the remainder with leading separators stripped; on no match
returns the path unchanged. -/
def relpath (roots : List Root) (path : Str) : Str :=
  match roots with
  | [] => path
  | r :: rest =>
    match matchRoot r path with
    | some p => lstripSlash p.2
    | none => relpath rest path

/-- `SystemBase.is_locator`: the (relative) path is non-empty and has no
separator once trailing separators are stripped. -/
def is_locator (roots : List Root) (path : Str) (relative : Bool) : Bool :=
  let p := if relative then path else relpath roots path
  !p.isEmpty && !(rstripSlash p).contains '/'

/-- `SystemBase.split_locator`: relative path split into (locator, tail);
the tail is empty when the path names the locator itself. -/
def split_locator (roots : List Root) (path : Str) : Str × Str :=
  let relative := relpath roots path
  match splitFirst (s2l "/") relative with
  | some p => p
  | none => (relative, [])

instance {ε α : Type} [DecidableEq ε] [DecidableEq α] : DecidableEq (Except ε α) :=
  fun a b =>
    match a, b with
    | .error x, .error y =>
      if h : x = y then .isTrue (by rw [h])
      else .isFalse (fun hh => h (by cases hh; rfl))
    | .error _, .ok _ => .isFalse (fun hh => by cases hh)
    | .ok _, .error _ => .isFalse (fun hh => by cases hh)
    | .ok x, .ok y =>
      if h : x = y then .isTrue (by rw [h])
      else .isFalse (fun hh => h (by cases hh; rfl))

/-- A generator run: the items it yields, then an optional error raised
after the last yielded item (`none` = normal exhaustion). -/
structure Gen where
  items : List (Str × Header)
  err : Option Err
deriving DecidableEq, Repr

/-- A storage system: configured roots plus the abstract backend
operations of `SystemBase` subclasses.  `headOp` is `_head` composed with
`get_client_kwargs` (keyed by the full path); `listLoc` is
`_list_locators`; `listObjs loc tail max` is `_list_objects` for the
locator's client kwargs, a path prefix and `max_request_entries`. -/
structure Sys where
  roots : List Root
  headOp : Str → Except Err Header
  listLoc : Gen
  listObjs : Str → Str → Option Nat → Gen

/-- `SystemBase.exists`: True unless `head` fails with Not-Found; any
other error from `head` propagates. -/
def existsOp (sys : Sys) (path : Str) : Except Err Bool :=
  match sys.headOp path with
  | .ok _ => .ok true
  | .error .notFound => .ok false
  | .error e => .error e

/-- The prefix-stripping step of the sub-path branch of
`SystemBase.list_objects`: `obj_path.split(path, 1)[1].lstrip('/')`;
`none` is the `IndexError` (entry skipped); no stripping when the listed
path is empty. -/
def stripStep (path1 obj : Str) : Option Str :=
  if path1.isEmpty then some obj
  else
    match splitFirst path1 obj with
    | none => none
    | some p => some (lstripSlash p.2)

/-- The sub-path branch of `SystemBase.list_objects`: strips the listed
path prefix from each backend key (skipping unsplittable entries and the
empty remainder, i.e. the parent directory marker), and in first-level
mode collapses multi-segment remainders to their first segment plus a
separator with an empty header, suppressing duplicates through the
`seen` set. -/
def subItems (path1 : Str) (firstLevel : Bool) :
    List (Str × Header) → List Str → List (Str × Header)
  | [], _ => []
  | (obj, h) :: rest, seen =>
    match stripStep path1 obj with
    | none => subItems path1 firstLevel rest seen
    | some objPath =>
      if objPath.isEmpty then subItems path1 firstLevel rest seen
      else if firstLevel then
        let nh : Str × Header :=
          match splitFirst (s2l "/") (stripSlash objPath) with
          | some p => (p.1 ++ s2l "/", ([] : Header))
          | none => (objPath, h)
        if nh.1 ∈ seen then subItems path1 firstLevel rest seen
        else nh :: subItems path1 firstLevel rest (nh.1 :: seen)
      else (objPath, h) :: subItems path1 firstLevel rest seen

/-- The name-joining of locator contents in the root branch of
`SystemBase.list_objects`: `'/'.join((loc_path, obj_path.lstrip('/')))`. -/
def joinedItems (loc : Str) (g : Gen) : List (Str × Header) :=
  g.items.map (fun p => (loc ++ s2l "/" ++ lstripSlash p.1, p.2))

/-- The root branch of `SystemBase.list_objects` without `first_level`:
yields each locator (name stripped of trailing separators) followed by its
joined contents; a `PermissionDenied` while enumerating one locator's
contents is swallowed and enumeration continues with the next locator;
any other error stops the enumeration and propagates. -/
def rootItems (contents : Str → Gen) : List (Str × Header) → Gen
  | [] => ⟨[], none⟩
  | (locName, h) :: rest =>
    match (contents (rstripSlash locName)).err with
    | some e =>
      if e = .permission then
        ⟨(rstripSlash locName, h) ::
            joinedItems (rstripSlash locName) (contents (rstripSlash locName)) ++
            (rootItems contents rest).items,
          (rootItems contents rest).err⟩
      else
        ⟨(rstripSlash locName, h) ::
            joinedItems (rstripSlash locName) (contents (rstripSlash locName)),
          some e⟩
    | none =>
      ⟨(rstripSlash locName, h) ::
          joinedItems (rstripSlash locName) (contents (rstripSlash locName)) ++
          (rootItems contents rest).items,
        (rootItems contents rest).err⟩

/-- `SystemBase.list_objects`.  From the root: locators only
(first level) or each locator followed by its contents (with the
per-locator permission recovery of `rootItems`).  From a locator or
sub-directory: the backend listing with the prefix stripped, optionally
flattened to first-level entries. -/
def list_objects (sys : Sys) (path0 : Str) (relative firstLevel : Bool)
    (maxEntries : Option Nat) : Gen :=
  let path := if relative then path0 else relpath sys.roots path0
  if path.isEmpty then
    if firstLevel then sys.listLoc
    else
      let r := rootItems (fun loc => sys.listObjs loc [] maxEntries) sys.listLoc.items
      ⟨r.items, match r.err with | some e => some e | none => sys.listLoc.err⟩
  else
    let lp := split_locator sys.roots path
    let g := sys.listObjs lp.1 lp.2 maxEntries
    ⟨subItems lp.2 firstLevel g.items [], g.err⟩

/-- `next(...)` on a `list_objects` generator: the first yielded item, or
the generator's error when it fails before the first yield, or `none`
(`StopIteration`) when it is exhausted at once. -/
def probeFirst (sys : Sys) (relative : Str) : Except Err (Option (Str × Header)) :=
  let g := list_objects sys relative true false (some 1)
  match g.items with
  | a :: _ => .ok (some a)
  | [] =>
    match g.err with
    | some e => .error e
    | none => .ok none

/-- `SystemBase.isdir`: the root is always a directory; a path ending in
a separator or naming a locator is a directory when it exists explicitly
or (with `virtual_dir`) when a listing probe bounded to one entry yields
an entry; a probe that yields nothing or fails with Not-Found/Unsupported
means False; anything else is not a directory. -/
def isdir (sys : Sys) (path : Str) (virtualDir : Bool) : Except Err Bool :=
  let relative := relpath sys.roots path
  if relative.isEmpty then .ok true
  else if endsWithSlash path || is_locator sys.roots relative true then
    match existsOp sys path with
    | .error e => .error e
    | .ok true => .ok true
    | .ok false =>
      if virtualDir then
        match probeFirst sys relative with
        | .ok (some _) => .ok true
        | .ok none => .ok false
        | .error .notFound => .ok false
        | .error .unsupported => .ok false
        | .error e => .error e
      else .ok false
  else .ok false

/-- `SystemBase.isfile`: the root is never a file; otherwise, for a path
not ending in a separator and not passing the locator test — which the
source applies to the original path with `relative=True` — the existence
check decides. -/
def isfile (sys : Sys) (path : Str) : Except Err Bool :=
  let relative := relpath sys.roots path
  if relative.isEmpty then .ok false
  else if !endsWithSlash path && !is_locator sys.roots path true then
    existsOp sys path
  else .ok false

/-- Keys of one locator in a flat key/value store. -/
def keysOf (keys : List (Str × Str × Header)) (loc : Str) : List (Str × Header) :=
  keys.filterMap (fun e => if e.1 = loc then some e.2 else none)

/-- A concrete flat-key object store backend (S3-style, without explicit
directory markers): `head` succeeds on existing locators and exact keys,
listing returns the keys under a prefix, capped by
`max_request_entries`. -/
def storeSys (roots : List Root) (locators : List Str)
    (keys : List (Str × Str × Header)) : Sys :=
  { roots := roots
    headOp := fun path =>
      let lp := split_locator roots path
      if lp.2.isEmpty then
        if lp.1 ∈ locators then .ok [] else .error .notFound
      else
        match (keysOf keys lp.1).lookup lp.2 with
        | some h => .ok h
        | none => .error .notFound
    listLoc := ⟨locators.map (fun l => (l, [])), none⟩
    listObjs := fun loc pfx maxE =>
      let l := (keysOf keys loc).filter (fun kh => pfx.isPrefixOf kh.1)
      ⟨match maxE with | some m => l.take m | none => l, none⟩ }

/-- The remainder a backend key keeps after the listing strips the
listed tail from it (the key unchanged when the tail is empty). -/
def remAfter (tail k : Str) : Str :=
  if tail.isEmpty then k else lstripSlash (k.drop tail.length)

/-- A system whose listing backend always fails with the given error:
the shape of `SystemBase` itself, whose default `_list_objects` raises
`UnsupportedOperation('listdir')` (and of a backend raising
`ObjectNotFoundError`), with no object answering `head`. -/
def probeFailSys (e : Err) : Sys :=
  { roots := [Root.lit (s2l "s3://")]
    headOp := fun _ => .error .notFound
    listLoc := ⟨[], none⟩
    listObjs := fun _ _ _ => ⟨[], some e⟩ }

/-- Python `header.pop(key)`: the removed value and the remaining header,
or `none` (`KeyError`) when the key is absent. -/
def popKey (k : Str) : Header → Option (Int × Header)
  | [] => none
  | (k', v) :: rest =>
    if k' = k then some (v, rest)
    else
      match popKey k rest with
      | some p => some (p.1, (k', v) :: p.2)
      | none => none

/-- The shared shape of `_getsize_from_header` / `_get_time`: consume the
first present key of the backend-declared candidate list, failing with
`Unsupported` when none is present. -/
def extractField (keys : List Str) (h : Header) : Except Err (Int × Header) :=
  match keys with
  | [] => .error .unsupported
  | k :: rest =>
    match popKey k h with
    | some p => .ok p
    | none => extractField rest h

/-- `SystemBase._SIZE_KEYS`. -/
def SIZE_KEYS : List Str := [s2l "Content-Length"]

/-- `SystemBase._CTIME_KEYS`. -/
def CTIME_KEYS : List Str := []

/-- `SystemBase._MTIME_KEYS`. -/
def MTIME_KEYS : List Str := [s2l "Last-Modified"]

/-- `OrderedDict` assignment `d[k] = v`: update in place when the key is
present, append otherwise. -/
def odSet (k : Str) (v : Int) : List (Str × Int) → List (Str × Int)
  | [] => [(k, v)]
  | (k', v') :: rest => if k' = k then (k, v) :: rest else (k', v') :: odSet k v rest

/-- `OrderedDict` lookup (0 when absent; every key looked up below is
initialized, so the default is never observable). -/
def odGet (k : Str) : List (Str × Int) → Int
  | [] => 0
  | (k', v') :: rest => if k' = k then v' else odGet k rest

/-- The ten standard `os.stat_result` fields, in source order. -/
def statNames : List Str :=
  [s2l "st_mode", s2l "st_ino", s2l "st_dev", s2l "st_nlink", s2l "st_uid",
   s2l "st_gid", s2l "st_size", s2l "st_atime", s2l "st_mtime", s2l "st_ctime"]

/-- The initial stat mapping: all ten standard fields at 0. -/
def statInit : List (Str × Int) := statNames.map (fun n => (n, 0))

/-- `stat.S_IFDIR`. -/
def S_IFDIR : Int := 16384

/-- `stat.S_IFREG`. -/
def S_IFREG : Int := 32768

/-- One iteration of stat's extractor loop
(`for key, method in (...)`: `try: stat[key] = int(method(header))
except UnsupportedOperation: continue`), threading the destructively
consumed header. -/
def statStep (key : Str) (keys : List Str) (sh : List (Str × Int) × Header) :
    List (Str × Int) × Header :=
  match extractField keys sh.2 with
  | .ok p => (odSet key p.1 sh.1, p.2)
  | .error _ => sh

/-- The stat mapping and remaining header after the three extractor
iterations (st_size, st_ctime, st_mtime, in source order). -/
def statFields (sizeKeys ctimeKeys mtimeKeys : List Str) (header : Header) :
    List (Str × Int) × Header :=
  statStep (s2l "st_mtime") mtimeKeys
    (statStep (s2l "st_ctime") ctimeKeys
      (statStep (s2l "st_size") sizeKeys (statInit, header)))

/-- The size the claim says was "resolved from the header": the
extracted value, or the 0 default when extraction is Unsupported. -/
def sizeRes (sizeKeys : List Str) (header : Header) : Int :=
  match extractField sizeKeys header with
  | .ok p => p.1
  | .error _ => 0

/-- `SystemBase.stat` up to the file-mode step (source lines 609-631):
populate st_size/st_ctime/st_mtime from the header (each `Unsupported`
caught, leaving the 0 default; the header is consumed destructively),
then set st_mode to directory iff (the path is empty, ends in a
separator or is a locator) AND st_size is 0.  Returns the stat mapping
and the remaining header. -/
def statBase (roots : List Root) (sizeKeys ctimeKeys mtimeKeys : List Str)
    (path : Str) (header : Header) : List (Str × Int) × Header :=
  (odSet (s2l "st_mode")
    (if (path.isEmpty || endsWithSlash path || is_locator roots path false)
        && (odGet (s2l "st_size") (statFields sizeKeys ctimeKeys mtimeKeys header).1 == 0)
      then S_IFDIR else S_IFREG)
    (statFields sizeKeys ctimeKeys mtimeKeys header).1,
   (statFields sizeKeys ctimeKeys mtimeKeys header).2)

/-- The `_CHAR_FILTER` normalization: lower-case, then strip every
character outside a-z and 0-9. -/
def normalizeKey (k : Str) : Str :=
  (k.map Char.toLower).filter (fun c => ('a' ≤ c && c ≤ 'z') || ('0' ≤ c && c ≤ '9'))

/-- `SystemBase.stat`: the standard fields and mode of `statBase`, then
every remaining header field re-published as `st_` plus its normalized
name. -/
def stat (roots : List Root) (sizeKeys ctimeKeys mtimeKeys : List Str)
    (path : Str) (header : Header) : List (Str × Int) :=
  let b := statBase roots sizeKeys ctimeKeys mtimeKeys path header
  b.2.foldl (fun acc kv => odSet (s2l "st_" ++ normalizeKey kv.1) kv.2 acc) b.1

/-- `_ERROR_CODES` of the S3 backend: the boto error codes translated at
the backend boundary. -/
def ERROR_CODES (c : Str) : Option Err :=
  if c = s2l "AccessDenied" || c = s2l "403" then some .permission
  else if c = s2l "NoSuchKey" || c = s2l "404" then some .notFound
  else none

/-- `S3RawIO._read_range` applied to the client's response: a mapped
error code is translated by `_handle_client_error` (and escapes the
`ClientError` handler); an untranslated `InvalidRange` is the end of
stream and becomes an empty result; every other untranslated client
error re-raises. -/
def read_range_response (resp : Except Str (List Nat)) : Except Err (List Nat) :=
  match resp with
  | .ok b => .ok b
  | .error c =>
    match ERROR_CODES c with
    | some e => .error e
    | none => if c = s2l "InvalidRange" then .ok [] else .error (.client c)

/-- The external S3 client's ranged `get_object`, at the interface
boundary the spec fixes for it: a range whose begin is at or past the
object length fails with `InvalidRange`, otherwise the requested slice
(`end = 0` meaning an open-ended range) is returned. -/
def s3GetObject (content : List Nat) (start endPos : Nat) : Except Str (List Nat) :=
  if content.length ≤ start then .error (s2l "InvalidRange")
  else .ok ((if endPos = 0 then content else content.take endPos).drop start)

/-- `S3RawIO._read_range` over the modelled client. -/
def read_range (content : List Nat) (start endPos : Nat) : Except Err (List Nat) :=
  read_range_response (s3GetObject content start endPos)

/-- One page of an S3 `list_objects_v2` response: boto omits the
`Contents` field entirely when the listing is empty. -/
structure S3Page where
  contents : Option (List (Str × Header))
  nextToken : Option Str
deriving DecidableEq, Repr

/-- `_S3System._list_objects`: pages are fetched while a continuation
token is present; each page's entries are yielded through a direct
`response` subscript of `Contents`, so a page without `Contents` raises
`KeyError`. -/
def s3_list_objects : List S3Page → Gen
  | [] => ⟨[], none⟩
  | p :: rest =>
    match p.contents with
    | none => ⟨[], some .keyError⟩
    | some l =>
      match p.nextToken with
      | some _ =>
        let r := s3_list_objects rest
        ⟨l ++ r.items, r.err⟩
      | none => ⟨l, none⟩

/-- One dispatched multipart-upload part: its sequence number
(`PartNumber`, assigned at dispatch in `_flush`) and the future's
eventual outcome (an ETag, or the upload's error). -/
structure UploadPart where
  partNumber : Nat
  response : Except Err Str
deriving DecidableEq, Repr

/-- The await loop of `S3BufferedIO._close_writable`: parts are awaited
in list (dispatch) order; the numbers of the parts whose future was
awaited, and the ordered (PartNumber, ETag) list or the first error. -/
def awaitParts : List UploadPart → List Nat × Except Err (List (Nat × Str))
  | [] => ([], .ok [])
  | p :: rest =>
    match p.response with
    | .error e => ([p.partNumber], .error e)
    | .ok etag =>
      let r := awaitParts rest
      (p.partNumber :: r.1,
        match r.2 with
        | .ok l => .ok ((p.partNumber, etag) :: l)
        | .error e => .error e)

/-- Observable outcome of closing a buffered write stream: which part
futures were awaited, the part list passed to
`complete_multipart_upload` when that call was issued, and the error
surfaced to the caller. -/
structure CloseOutcome where
  awaited : List Nat
  completedParts : Option (List (Nat × Str))
  error : Option Err
deriving DecidableEq, Repr

/-- `S3BufferedIO._close_writable`: await each saved part future in
order; if all succeed, issue the completion call with the collected
part list; a failing future propagates immediately. -/
def close_writable (parts : List UploadPart) : CloseOutcome :=
  match awaitParts parts with
  | (aw, .ok l) => ⟨aw, some l, none⟩
  | (aw, .error e) => ⟨aw, none, some e⟩

/-- True when the part's upload future resolved successfully. -/
def okPart (p : UploadPart) : Bool :=
  match p.response with
  | .ok _ => true
  | .error _ => false

/-- The (PartNumber, ETag) pairs of the successfully uploaded parts, in
list order. -/
def partETags (parts : List UploadPart) : List (Nat × Str) :=
  parts.filterMap (fun p =>
    match p.response with
    | .ok t => some (p.partNumber, t)
    | .error _ => none)

/-- Parts 1..3 dispatched; part 2's upload fails while part 3 is in flight. -/
def c1parts : List UploadPart :=
  [⟨1, .ok (s2l "etag1")⟩, ⟨2, .error (.client (s2l "InternalError"))⟩,
   ⟨3, .ok (s2l "etag3")⟩]

/-- Per-locator contents used by the C6 witness: locator a denies
permission, locator c fails with Not-Found, every other locator lists
one object. -/
def c6contents : Str → Gen := fun loc =>
  if loc = s2l "a" then ⟨[], some .permission⟩
  else if loc = s2l "c" then ⟨[], some .notFound⟩
  else ⟨[(s2l "k", [])], none⟩

/-- Spec-side (claim wording): the remainders of the backend entries
after stripping the listed path prefix, dropping unsplittable entries
and the empty (parent directory) remainder. -/
def remaindersSpec (p : Str) (es : List (Str × Header)) : List (Str × Header) :=
  es.filterMap (fun e =>
    match stripStep p e.1 with
    | none => none
    | some x => if x.isEmpty then none else some (x, e.2))

/-- Spec-side (claim wording): a multi-segment remainder collapses to
its first segment plus a trailing separator with an empty header; a
single-segment remainder keeps its name and header. -/
def collapseSpec (e : Str × Header) : Str × Header :=
  match splitFirst (s2l "/") (stripSlash e.1) with
  | some q => (q.1 ++ s2l "/", ([] : Header))
  | none => e

/-- Spec-side (claim wording): duplicates suppressed by a seen-set, in
first-encountered order. -/
def dedupFirstSpec : List (Str × Header) → List Str → List (Str × Header)
  | [], _ => []
  | e :: rest, seen =>
    if e.1 ∈ seen then dedupFirstSpec rest seen
    else e :: dedupFirstSpec rest (e.1 :: seen)

-- Helper lemmas on the string model.

theorem head?_lstripSlash (x : Str) : (lstripSlash x).head? ≠ some '/' := by
  induction x with
  | nil => simp [lstripSlash]
  | cons c rest ih =>
    by_cases hc : c = '/'
    · simpa [lstripSlash, hc] using ih
    · simp [lstripSlash, hc]

theorem lstripSlash_ne_nil_getLast? (x : Str) (h : lstripSlash x ≠ []) :
    (lstripSlash x).getLast? = x.getLast? := by
  induction x with
  | nil => simp [lstripSlash] at h
  | cons c rest ih =>
    by_cases hc : c = '/'
    · have hx : lstripSlash (c :: rest) = lstripSlash rest := by simp [lstripSlash, hc]
      rw [hx] at h ⊢
      rw [ih h]
      have hrest : rest ≠ [] := by
        intro hr
        rw [hr] at h
        simp [lstripSlash] at h
      cases rest with
      | nil => exact absurd rfl hrest
      | cons b l => simp [List.getLast?_cons_cons]
    · simp [lstripSlash, hc]

theorem drop_ne_nil_getLast? (l : Str) (n : Nat) (h : l.drop n ≠ []) :
    (l.drop n).getLast? = l.getLast? := by
  induction n generalizing l with
  | zero => simp
  | succ m ih =>
    cases l with
    | nil => simp at h
    | cons c rest =>
      have hx : (c :: rest).drop (m + 1) = rest.drop m := rfl
      rw [hx] at h ⊢
      rw [ih rest h]
      have hrest : rest ≠ [] := by
        intro hr
        rw [hr] at h
        simp at h
      cases rest with
      | nil => exact absurd rfl hrest
      | cons b l' => simp [List.getLast?_cons_cons]

theorem splitFirst_after (sep : Str) :
    ∀ l a b, splitFirst sep l = some (a, b) → ∃ n, b = l.drop n := by
  intro l
  induction l with
  | nil =>
    intro a b h
    unfold splitFirst at h
    by_cases hp : sep.isPrefixOf ([] : Str)
    · rw [if_pos hp] at h
      refine ⟨0, ?_⟩
      cases h
      rfl
    · rw [if_neg hp] at h
      cases h
  | cons c rest ih =>
    intro a b h
    unfold splitFirst at h
    by_cases hp : sep.isPrefixOf (c :: rest)
    · rw [if_pos hp] at h
      refine ⟨sep.length, ?_⟩
      cases h
      rfl
    · rw [if_neg hp] at h
      cases hrec : splitFirst sep rest with
      | none =>
        rw [hrec] at h
        cases h
      | some q =>
        rw [hrec] at h
        have hb : q.2 = b := by
          cases h
          rfl
        obtain ⟨n, hn⟩ := ih q.1 q.2 (by rw [hrec])
        exact ⟨n + 1, by rw [← hb, hn]; rfl⟩

theorem matchRoot_after (r : Root) (p a b : Str) (h : matchRoot r p = some (a, b)) :
    ∃ n, b = p.drop n := by
  cases r with
  | lit x => exact splitFirst_after x p a b h
  | pat f =>
    simp [matchRoot] at h
    obtain ⟨n, _, _, hb⟩ := h
    exact ⟨n, hb.symm⟩

theorem splitFirst_of_isPre (sep l : Str) (hne : sep ≠ [])
    (h : sep.isPrefixOf l = true) :
    splitFirst sep l = some ([], l.drop sep.length) := by
  cases l with
  | nil =>
    cases sep with
    | nil => exact absurd rfl hne
    | cons c r => simp [List.isPrefixOf] at h
  | cons c rest => simp [splitFirst, h]

-- Helper lemmas on the ordered-mapping model.

theorem odGet_odSet_self (k : Str) (v : Int) (l : List (Str × Int)) :
    odGet k (odSet k v l) = v := by
  induction l with
  | nil => simp [odSet, odGet]
  | cons e rest ih =>
    obtain ⟨k', v'⟩ := e
    by_cases he : k' = k
    · simp [odSet, odGet, he]
    · simp only [odSet, if_neg he]
      simp only [odGet, if_neg he]
      exact ih

theorem odGet_odSet_ne (k k' : Str) (hne : k ≠ k') (v : Int) (l : List (Str × Int)) :
    odGet k (odSet k' v l) = odGet k l := by
  induction l with
  | nil =>
    simp only [odSet, odGet]
    rw [if_neg (Ne.symm hne)]
  | cons e rest ih =>
    obtain ⟨kk, vv⟩ := e
    by_cases he : kk = k'
    · simp only [odSet, if_pos he]
      simp only [odGet]
      have hkk : ¬kk = k := by rw [he]; exact Ne.symm hne
      rw [if_neg (Ne.symm hne), if_neg hkk]
    · simp only [odSet, if_neg he]
      simp only [odGet]
      by_cases hk : kk = k
      · rw [if_pos hk, if_pos hk]
      · rw [if_neg hk, if_neg hk]
        exact ih

theorem odSet_keys (k : Str) (v : Int) (l : List (Str × Int)) :
    (odSet k v l).map Prod.fst = l.map Prod.fst ∨
      (odSet k v l).map Prod.fst = l.map Prod.fst ++ [k] := by
  induction l with
  | nil => right; simp [odSet]
  | cons e rest ih =>
    cases e with
    | mk kk vv =>
      by_cases he : kk = k
      · left; simp [odSet, he]
      · cases ih with
        | inl h => left; simp [odSet, he, h]
        | inr h => right; simp [odSet, he, h]

theorem odSet_keys_mem (k : Str) (v : Int) (l : List (Str × Int))
    (h : k ∈ l.map Prod.fst) : (odSet k v l).map Prod.fst = l.map Prod.fst := by
  induction l with
  | nil => simp at h
  | cons e rest ih =>
    cases e with
    | mk kk vv =>
      by_cases he : kk = k
      · simp [odSet, he]
      · simp only [List.map_cons, List.mem_cons] at h
        cases h with
        | inl h' => exact absurd h'.symm he
        | inr h' => simp [odSet, he, ih h']

theorem popKey_subset (k : Str) :
    ∀ (h : Header) (v : Int) (h' : Header), popKey k h = some (v, h') →
      ∀ kv, kv ∈ h' → kv ∈ h := by
  intro h
  induction h with
  | nil => intro v h' hpop; cases hpop
  | cons e rest ih =>
    intro v h' hpop kv hkv
    obtain ⟨kk, vv⟩ := e
    unfold popKey at hpop
    by_cases he : kk = k
    · rw [if_pos he] at hpop
      cases hpop
      exact List.mem_cons_of_mem _ hkv
    · rw [if_neg he] at hpop
      cases hrec : popKey k rest with
      | none =>
        rw [hrec] at hpop
        cases hpop
      | some q =>
        obtain ⟨qv, qh⟩ := q
        rw [hrec] at hpop
        cases hpop
        cases List.mem_cons.mp hkv with
        | inl h1 => exact h1 ▸ List.mem_cons_self _ _
        | inr h1 => exact List.mem_cons_of_mem _ (ih qv qh hrec kv h1)

theorem extractField_subset (ks : List Str) (h : Header) (v : Int) (h' : Header)
    (hx : extractField ks h = .ok (v, h')) : ∀ kv, kv ∈ h' → kv ∈ h := by
  induction ks with
  | nil => cases hx
  | cons k rest ih =>
    unfold extractField at hx
    cases hpop : popKey k h with
    | none =>
      rw [hpop] at hx
      exact ih hx
    | some q =>
      obtain ⟨qv, qh⟩ := q
      rw [hpop] at hx
      cases hx
      exact popKey_subset k h _ _ hpop

theorem odGet_foldl_ne (f : Str → Str) (k : Str) :
    ∀ (ext : Header) (init : List (Str × Int)),
      (∀ kv ∈ ext, f kv.1 ≠ k) →
      odGet k (ext.foldl (fun acc kv => odSet (f kv.1) kv.2 acc) init) = odGet k init := by
  intro ext
  induction ext with
  | nil => intro init _; rfl
  | cons e rest ih =>
    intro init hne
    have h1 : odGet k (odSet (f e.1) e.2 init) = odGet k init :=
      odGet_odSet_ne k (f e.1) (fun hh => hne e (List.mem_cons_self _ _) hh.symm) e.2 init
    simp only [List.foldl_cons]
    rw [ih (odSet (f e.1) e.2 init) (fun kv hkv => hne kv (List.mem_cons_of_mem _ hkv)), h1]

theorem keys_foldl_ext (f : Str → Str) :
    ∀ (ext : Header) (init : List (Str × Int)),
      ∃ extk, (ext.foldl (fun acc kv => odSet (f kv.1) kv.2 acc) init).map Prod.fst =
        init.map Prod.fst ++ extk := by
  intro ext
  induction ext with
  | nil => intro init; exact ⟨[], by simp⟩
  | cons e rest ih =>
    intro init
    obtain ⟨extk, hk⟩ := ih (odSet (f e.1) e.2 init)
    simp only [List.foldl_cons]
    cases odSet_keys (f e.1) e.2 init with
    | inl h => exact ⟨extk, by rw [hk, h]⟩
    | inr h => exact ⟨[f e.1] ++ extk, by rw [hk, h, List.append_assoc]⟩

-- Helper lemmas about the multipart await loop.

theorem awaitParts_allOk : ∀ parts : List UploadPart, parts.all okPart = true →
    awaitParts parts = (parts.map UploadPart.partNumber, .ok (partETags parts)) := by
  intro parts
  induction parts with
  | nil => intro _; rfl
  | cons p rest ih =>
    intro hall
    simp only [List.all_cons, Bool.and_eq_true] at hall
    cases hresp : p.response with
    | error e => simp [okPart, hresp] at hall
    | ok etag =>
      unfold awaitParts
      rw [hresp, ih hall.2]
      simp [partETags, List.filterMap_cons, hresp]

theorem awaitParts_firstErr :
    ∀ (pre : List UploadPart) (p : UploadPart) (post : List UploadPart) (e : Err),
      pre.all okPart = true → p.response = .error e →
      awaitParts (pre ++ p :: post) =
        (pre.map UploadPart.partNumber ++ [p.partNumber], .error e) := by
  intro pre
  induction pre with
  | nil =>
    intro p post e _ hresp
    simp only [List.nil_append, List.map_nil]
    unfold awaitParts
    rw [hresp]
  | cons q pre' ih =>
    intro p post e hall hresp
    simp only [List.all_cons, Bool.and_eq_true] at hall
    cases hq : q.response with
    | error e' => simp [okPart, hq] at hall
    | ok etag =>
      simp only [List.cons_append]
      unfold awaitParts
      rw [hq, ih p post e hall.2 hresp]
      simp

theorem awaitParts_some_err : ∀ parts : List UploadPart, parts.all okPart = false →
    ∃ e, (awaitParts parts).2 = .error e := by
  intro parts
  induction parts with
  | nil => intro h; simp at h
  | cons p rest ih =>
    intro hall
    cases hq : p.response with
    | error e => exact ⟨e, by unfold awaitParts; rw [hq]⟩
    | ok etag =>
      have hrest : rest.all okPart = false := by
        cases hr : rest.all okPart with
        | false => rfl
        | true => simp [List.all_cons, hr, okPart, hq] at hall
      obtain ⟨e, he⟩ := ih hrest
      refine ⟨e, ?_⟩
      unfold awaitParts
      rw [hq]
      simp only
      rw [he]

theorem close_writable_ok (parts : List UploadPart) (h : parts.all okPart = true) :
    close_writable parts =
      ⟨parts.map UploadPart.partNumber, some (partETags parts), none⟩ := by
  unfold close_writable
  rw [awaitParts_allOk parts h]

theorem close_writable_firstErr (pre : List UploadPart) (p : UploadPart)
    (post : List UploadPart) (e : Err) (hpre : pre.all okPart = true)
    (hp : p.response = .error e) :
    close_writable (pre ++ p :: post) =
      ⟨pre.map UploadPart.partNumber ++ [p.partNumber], none, some e⟩ := by
  unfold close_writable
  rw [awaitParts_firstErr pre p post e hpre hp]

theorem close_writable_fail (parts : List UploadPart) (h : parts.all okPart = false) :
    (close_writable parts).completedParts = none := by
  obtain ⟨e, he⟩ := awaitParts_some_err parts h
  have hx : awaitParts parts = ((awaitParts parts).1, Except.error e) := by rw [← he]
  unfold close_writable
  rw [hx]

theorem partETags_map_fst : ∀ parts : List UploadPart, parts.all okPart = true →
    (partETags parts).map Prod.fst = parts.map UploadPart.partNumber := by
  intro parts
  induction parts with
  | nil => intro _; rfl
  | cons p rest ih =>
    intro hall
    simp only [List.all_cons, Bool.and_eq_true] at hall
    cases hq : p.response with
    | error e => simp [okPart, hq] at hall
    | ok etag =>
      simp only [partETags, List.filterMap_cons, hq, List.map_cons]
      exact congrArg (List.cons p.partNumber) (ih hall.2)

-- Helper lemmas about first-level flattening.

theorem dedupFirstSpec_nodup : ∀ (l : List (Str × Header)) (seen : List Str),
    ((dedupFirstSpec l seen).map Prod.fst).Nodup ∧
      ∀ n ∈ (dedupFirstSpec l seen).map Prod.fst, n ∉ seen := by
  intro l
  induction l with
  | nil =>
    intro seen
    constructor
    · simp [dedupFirstSpec]
    · simp [dedupFirstSpec]
  | cons e rest ih =>
    intro seen
    by_cases he : e.1 ∈ seen
    · simp only [dedupFirstSpec, if_pos he]
      exact ih seen
    · simp only [dedupFirstSpec, if_neg he]
      obtain ⟨hnd, hns⟩ := ih (e.1 :: seen)
      constructor
      · simp only [List.map_cons, List.nodup_cons]
        exact ⟨fun hmem => (hns e.1 hmem) (List.mem_cons_self _ _), hnd⟩
      · intro n hn
        simp only [List.map_cons, List.mem_cons] at hn
        cases hn with
        | inl h1 => exact h1 ▸ he
        | inr h1 => exact fun hmem => hns n h1 (List.mem_cons_of_mem _ hmem)

-- Helper lemmas about the root-level listing branch.

theorem rootItems_ok (contents : Str → Gen) :
    ∀ locs : List (Str × Header),
      (∀ le ∈ locs, (contents (rstripSlash le.1)).err = none ∨
        (contents (rstripSlash le.1)).err = some .permission) →
      (rootItems contents locs).err = none ∧
      ∀ le ∈ locs, (rstripSlash le.1, le.2) ∈ (rootItems contents locs).items := by
  intro locs
  induction locs with
  | nil => intro _; exact ⟨rfl, by simp⟩
  | cons l rest ih =>
    intro hall
    obtain ⟨locName, h⟩ := l
    have hl := hall (locName, h) (List.mem_cons_self _ _)
    obtain ⟨hr_err, hr_mem⟩ := ih (fun le hle => hall le (List.mem_cons_of_mem _ hle))
    cases hg : (contents (rstripSlash locName)).err with
    | none =>
      constructor
      · simp only [rootItems, hg]
        exact hr_err
      · intro le hle
        simp only [rootItems, hg]
        cases List.mem_cons.mp hle with
        | inl h1 => rw [h1]; exact List.mem_cons_self _ _
        | inr h1 =>
          exact List.mem_cons_of_mem _ (List.mem_append_right _ (hr_mem le h1))
    | some e =>
      have he : e = .permission := by
        cases hl with
        | inl h2 => rw [hg] at h2; cases h2
        | inr h2 => rw [hg] at h2; cases h2; rfl
      subst he
      constructor
      · simp only [rootItems, hg, if_pos rfl]
        exact hr_err
      · intro le hle
        simp only [rootItems, hg, if_pos rfl]
        cases List.mem_cons.mp hle with
        | inl h1 => rw [h1]; exact List.mem_cons_self _ _
        | inr h1 =>
          exact List.mem_cons_of_mem _ (List.mem_append_right _ (hr_mem le h1))

theorem rootItems_err (contents : Str → Gen) :
    ∀ (pre : List (Str × Header)) (le : Str × Header) (post : List (Str × Header))
      (e : Err),
      (∀ q ∈ pre, (contents (rstripSlash q.1)).err = none ∨
        (contents (rstripSlash q.1)).err = some .permission) →
      (contents (rstripSlash le.1)).err = some e → e ≠ .permission →
      (rootItems contents (pre ++ le :: post)).err = some e ∧
      (rstripSlash le.1, le.2) ∈ (rootItems contents (pre ++ le :: post)).items := by
  intro pre
  induction pre with
  | nil =>
    intro le post e _ hge hne
    obtain ⟨locName, h⟩ := le
    simp only [List.nil_append]
    simp only at hge
    simp only [rootItems, hge, if_neg hne]
    exact ⟨trivial, List.mem_cons_self _ _⟩
  | cons q pre' ih =>
    intro le post e hpre hge hne
    obtain ⟨qn, qh⟩ := q
    have hq := hpre (qn, qh) (List.mem_cons_self _ _)
    obtain ⟨h1, h2⟩ := ih le post e (fun r hr => hpre r (List.mem_cons_of_mem _ hr)) hge hne
    simp only [List.cons_append]
    cases hg : (contents (rstripSlash qn)).err with
    | none =>
      simp only [rootItems, hg]
      exact ⟨h1, List.mem_cons_of_mem _ (List.mem_append_right _ h2)⟩
    | some e' =>
      have he' : e' = .permission := by
        simp only at hq
        cases hq with
        | inl h3 => rw [hg] at h3; cases h3
        | inr h3 => rw [hg] at h3; cases h3; rfl
      subst he'
      simp only [rootItems, hg, if_pos rfl]
      exact ⟨h1, List.mem_cons_of_mem _ (List.mem_append_right _ h2)⟩

theorem subItems_spec (p : Str) : ∀ (es : List (Str × Header)) (seen : List Str),
    subItems p true es seen =
      dedupFirstSpec ((remaindersSpec p es).map collapseSpec) seen := by
  intro es
  induction es with
  | nil => intro seen; rfl
  | cons e rest ih =>
    intro seen
    obtain ⟨obj, h⟩ := e
    simp only [subItems, remaindersSpec, List.filterMap_cons]
    cases hr : stripStep p obj with
    | none =>
      simp only [hr]
      exact ih seen
    | some x =>
      simp only [hr]
      by_cases hx : x.isEmpty
      · simp only [if_pos hx]
        exact ih seen
      · simp only [if_neg hx, if_pos rfl, if_true]
        have hcol : (match splitFirst (s2l "/") (stripSlash x) with
            | some q => (q.1 ++ s2l "/", ([] : Header))
            | none => (x, h)) = collapseSpec (x, h) := by
          unfold collapseSpec
          rfl
        rw [hcol]
        simp only [List.map_cons, dedupFirstSpec]
        by_cases hs : (collapseSpec (x, h)).1 ∈ seen
        · simp only [if_pos hs]
          exact ih seen
        · simp only [if_neg hs]
          rw [ih ((collapseSpec (x, h)).1 :: seen)]
          rfl

-- Claim C1 (corrected).

/-- C1 counterexample: with parts 1..3 dispatched and part 2 failing,
close surfaces the error and issues no completion call, but part 3's
future is never awaited — contradicting the claim that close awaits every
other dispatched in-flight part before raising. -/
theorem C1_counterexample :
    (close_writable c1parts).error.isSome = true ∧
    3 ∉ (close_writable c1parts).awaited ∧
    (close_writable c1parts).completedParts = none := by decide

/-- C1 (amended): close awaits part futures in dispatch (sequence)
order; the completion call is issued iff every part upload succeeded,
and then its part list is the dispatched parts in order; when a part
fails, close awaits only the parts up to and including the first failed
one (parts dispatched after it are not awaited), surfaces that part's
error, and issues no completion call. -/
theorem C1_close_writable (parts : List UploadPart) :
    ((close_writable parts).completedParts.isSome = true ↔ parts.all okPart = true) ∧
    (parts.all okPart = true →
      close_writable parts =
        ⟨parts.map UploadPart.partNumber, some (partETags parts), none⟩) ∧
    (∀ pre (p : UploadPart) post e, parts = pre ++ p :: post →
      pre.all okPart = true → p.response = .error e →
      close_writable parts =
        ⟨pre.map UploadPart.partNumber ++ [p.partNumber], none, some e⟩) ∧
    (∀ l, (close_writable parts).completedParts = some l →
      l.map Prod.fst = parts.map UploadPart.partNumber) := by
  refine ⟨⟨?_, ?_⟩, fun h => close_writable_ok parts h, ?_, ?_⟩
  · intro hsome
    cases hall : parts.all okPart with
    | true => rfl
    | false =>
      rw [close_writable_fail parts hall] at hsome
      cases hsome
  · intro hall
    rw [close_writable_ok parts hall]
    rfl
  · intro pre p post e hparts hpre hp
    rw [hparts]
    exact close_writable_firstErr pre p post e hpre hp
  · intro l hl
    cases hall : parts.all okPart with
    | false =>
      rw [close_writable_fail parts hall] at hl
      cases hl
    | true =>
      rw [close_writable_ok parts hall] at hl
      have hleq : partETags parts = l := by
        cases hl
        rfl
      rw [← hleq]
      exact partETags_map_fst parts hall

/-- C1 witness: a fully successful close completes with the ordered part
list; a close with a failed middle part awaits only parts 1 and 2,
surfaces part 2's error and does not complete. -/
theorem C1_witness :
    close_writable [⟨1, .ok (s2l "a")⟩, ⟨2, .ok (s2l "b")⟩] =
      ⟨[1, 2], some [(1, s2l "a"), (2, s2l "b")], none⟩ ∧
    close_writable [⟨1, .ok (s2l "a")⟩, ⟨2, .error .notFound⟩, ⟨3, .ok (s2l "c")⟩] =
      ⟨[1, 2], none, some .notFound⟩ := by
  constructor
  · have h := (C1_close_writable [⟨1, .ok (s2l "a")⟩, ⟨2, .ok (s2l "b")⟩]).2.1 (by decide)
    exact h.trans (by decide)
  · have h := (C1_close_writable
        [⟨1, .ok (s2l "a")⟩, ⟨2, .error .notFound⟩, ⟨3, .ok (s2l "c")⟩]).2.2.1
      [⟨1, .ok (s2l "a")⟩] ⟨2, .error .notFound⟩ [⟨3, .ok (s2l "c")⟩] .notFound
      rfl (by decide) rfl
    exact h.trans (by decide)

-- Claim C4 (confirmed).

/-- C4: a raw-stream range read whose start position is at or past the
object length returns an empty byte string instead of propagating the
backend's out-of-range error, and any backend error other than the
out-of-range code propagates as an error. -/
theorem C4_read_range (content : List Nat) (start endPos : Nat)
    (h : content.length ≤ start) :
    read_range content start endPos = .ok [] ∧
    ∀ c : Str, c ≠ s2l "InvalidRange" →
      ∃ e, read_range_response (.error c) = .error e := by
  constructor
  · unfold read_range s3GetObject
    rw [if_pos h]
    decide
  · intro c hc
    have hred : read_range_response (.error c) =
        (match ERROR_CODES c with
          | some e => Except.error e
          | none =>
            if c = s2l "InvalidRange" then Except.ok []
            else Except.error (Err.client c)) := rfl
    rw [hred]
    cases hEC : ERROR_CODES c with
    | some e => exact ⟨e, rfl⟩
    | none =>
      refine ⟨.client c, ?_⟩
      show (if c = s2l "InvalidRange" then Except.ok []
        else Except.error (Err.client c)) = Except.error (Err.client c)
      rw [if_neg hc]

/-- C4 witness: reading at offset 3 of a 3-byte object yields empty
bytes; a distinct client error code propagates. -/
theorem C4_witness :
    read_range [1, 2, 3] 3 0 = .ok [] ∧
    ∃ e, read_range_response (.error (s2l "SlowDown")) = .error e := by
  have h := C4_read_range [1, 2, 3] 3 0 (by decide)
  exact ⟨h.1, h.2 (s2l "SlowDown") (by decide)⟩

-- Claim C7 (code_bug).

/-- C7: listing a non-root, non-locator path with zero backend entries
does not fail with Not-Found — the generic layer yields an empty
sequence with no error, and the S3 backend's direct subscript of a
Contents-less response raises KeyError — although the repository's own
tests expect ObjectNotFoundError for exactly this case. -/
theorem C7_zero_entries_no_not_found :
    (split_locator [Root.lit (s2l "s3://")] (s2l "b/nope/")).2 ≠ [] ∧
    list_objects (storeSys [Root.lit (s2l "s3://")] [s2l "b"]
        [(s2l "b", s2l "file", [])]) (s2l "b/nope/") true false none = ⟨[], none⟩ ∧
    s3_list_objects [⟨none, none⟩] = ⟨[], some .keyError⟩ := by decide

-- Claim C8 (code_bug).

/-- C8: isfile applies the locator test to the original absolute path
with `relative=True` (where `isdir` tests the relative path), so for a
URL-rooted storage the test never fires: a path naming an existing
locator — for which the claim requires False — is reported as a file via
the existence check. -/
theorem C8_isfile_locator :
    is_locator [Root.lit (s2l "s3://")] (s2l "s3://b") false = true ∧
    is_locator [Root.lit (s2l "s3://")]
      (relpath [Root.lit (s2l "s3://")] (s2l "s3://b")) true = true ∧
    isfile (storeSys [Root.lit (s2l "s3://")] [s2l "b"] []) (s2l "s3://b") = .ok true := by
  decide

-- Claim C9 (corrected): relpath properties.

theorem relpath_nomatch (roots : List Root) (p : Str)
    (h : ∀ r ∈ roots, matchRoot r p = none) : relpath roots p = p := by
  induction roots with
  | nil => rfl
  | cons r rest ih =>
    have hr := h r (List.mem_cons_self _ _)
    simp only [relpath, hr]
    exact ih (fun r' hr' => h r' (List.mem_cons_of_mem _ hr'))

theorem relpath_head (roots : List Root) (p : Str)
    (h : ∃ r ∈ roots, (matchRoot r p).isSome = true) :
    (relpath roots p).head? ≠ some '/' := by
  induction roots with
  | nil =>
    obtain ⟨r, hr, _⟩ := h
    simp at hr
  | cons r rest ih =>
    cases hm : matchRoot r p with
    | some q =>
      simp only [relpath, hm]
      exact head?_lstripSlash q.2
    | none =>
      simp only [relpath, hm]
      apply ih
      obtain ⟨r', hr', hs⟩ := h
      cases List.mem_cons.mp hr' with
      | inl he =>
        rw [he, hm] at hs
        cases hs
      | inr he => exact ⟨r', he, hs⟩

theorem relpath_trailing (roots : List Root) (p : Str)
    (hp : p.getLast? = some '/') :
    relpath roots p = [] ∨ (relpath roots p).getLast? = some '/' := by
  induction roots with
  | nil => right; exact hp
  | cons r rest ih =>
    cases hm : matchRoot r p with
    | none =>
      simp only [relpath, hm]
      exact ih
    | some q =>
      simp only [relpath, hm]
      by_cases hz : lstripSlash q.2 = []
      · left; exact hz
      · right
        rw [lstripSlash_ne_nil_getLast? q.2 hz]
        obtain ⟨n, hn⟩ := matchRoot_after r p q.1 q.2 (by rw [hm])
        have hq2 : q.2 ≠ [] := by
          intro h0
          rw [h0] at hz
          exact hz rfl
        rw [hn]
        rw [drop_ne_nil_getLast? p n (by rw [← hn]; exact hq2)]
        exact hp

/-- C9 counterexample: with the single configured root the literal
"s3://", the path "s3://a/s3://b" is claimed by exactly one root, yet
applying relativePath to its own output is not a no-op: the remainder
"a/s3://b" still contains the root and is stripped again. -/
theorem C9_counterexample :
    (([Root.lit (s2l "s3://")]).filter
      (fun r => (matchRoot r (s2l "s3://a/s3://b")).isSome)).length = 1 ∧
    relpath [Root.lit (s2l "s3://")]
        (relpath [Root.lit (s2l "s3://")] (s2l "s3://a/s3://b")) ≠
      relpath [Root.lit (s2l "s3://")] (s2l "s3://a/s3://b") := by decide

/-- C9 (amended): a path matched by no configured root is returned
unchanged; relativePath is idempotent on every path whose output is
matched by no configured root (in particular whenever the remainder does
not itself contain a root); on a match only leading separators are
stripped (the result never starts with a separator) while trailing
separators are preserved (a path ending in a separator maps to an empty
remainder or one still ending in a separator). -/
theorem C9_relpath (roots : List Root) (p : Str) :
    ((∀ r ∈ roots, matchRoot r p = none) → relpath roots p = p) ∧
    ((∀ r ∈ roots, matchRoot r (relpath roots p) = none) →
      relpath roots (relpath roots p) = relpath roots p) ∧
    ((∃ r ∈ roots, (matchRoot r p).isSome = true) →
      (relpath roots p).head? ≠ some '/') ∧
    (p.getLast? = some '/' →
      relpath roots p = [] ∨ (relpath roots p).getLast? = some '/') :=
  ⟨relpath_nomatch roots p, relpath_nomatch roots (relpath roots p),
    relpath_head roots p, relpath_trailing roots p⟩

/-- C9 witness: a local path is returned unchanged; an "s3://" path's
remainder is stable under re-resolution, keeps no leading separator and
keeps its trailing separator. -/
theorem C9_witness :
    relpath [Root.lit (s2l "s3://")] (s2l "/local/file") = s2l "/local/file" ∧
    relpath [Root.lit (s2l "s3://")]
        (relpath [Root.lit (s2l "s3://")] (s2l "s3://a/b/")) =
      relpath [Root.lit (s2l "s3://")] (s2l "s3://a/b/") ∧
    (relpath [Root.lit (s2l "s3://")] (s2l "s3://a/b/")).head? ≠ some '/' ∧
    (relpath [Root.lit (s2l "s3://")] (s2l "s3://a/b/") = [] ∨
      (relpath [Root.lit (s2l "s3://")] (s2l "s3://a/b/")).getLast? = some '/') :=
  ⟨(C9_relpath [Root.lit (s2l "s3://")] (s2l "/local/file")).1 (by decide),
    (C9_relpath [Root.lit (s2l "s3://")] (s2l "s3://a/b/")).2.1 (by decide),
    (C9_relpath [Root.lit (s2l "s3://")] (s2l "s3://a/b/")).2.2.1 (by decide),
    (C9_relpath [Root.lit (s2l "s3://")] (s2l "s3://a/b/")).2.2.2 (by decide)⟩

-- Claim C5 (confirmed).

/-- C5: first-level listing equals the spec pipeline — strip the prefix
from each entry, collapse every multi-segment remainder to its first
segment plus a trailing separator with an empty header, keep
single-segment remainders with their original header, and suppress
duplicates by a seen-set in first-encountered order (so yielded names
are unique); over keys a/x, a/y, b under the empty prefix the yields
are exactly a/ (empty header) and b (original header). -/
theorem C5_first_level (p : Str) (es : List (Str × Header)) :
    subItems p true es [] =
      dedupFirstSpec ((remaindersSpec p es).map collapseSpec) [] ∧
    ((subItems p true es []).map Prod.fst).Nodup ∧
    list_objects (storeSys [Root.lit (s2l "s3://")] [s2l "b"]
        [(s2l "b", s2l "a/x", [(s2l "hx", 1)]), (s2l "b", s2l "a/y", [(s2l "hy", 2)]),
         (s2l "b", s2l "b", [(s2l "hb", 7)])])
      (s2l "b") true true none =
      ⟨[(s2l "a/", []), (s2l "b", [(s2l "hb", 7)])], none⟩ := by
  refine ⟨subItems_spec p es [], ?_, by decide⟩
  rw [subItems_spec p es []]
  exact (dedupFirstSpec_nodup _ []).1

-- Claim C6 (confirmed).

/-- C6: during a root-level recursive listing, when every locator's
content enumeration either succeeds or fails with PermissionDenied, the
listing completes without error and every locator itself is yielded;
when one locator's enumeration fails with any other error (all earlier
ones succeeding or failing with PermissionDenied), that error propagates
to the caller, the failing locator itself having been yielded. -/
theorem C6_root_listing (contents : Str → Gen) (locs : List (Str × Header)) :
    ((∀ le ∈ locs, (contents (rstripSlash le.1)).err = none ∨
        (contents (rstripSlash le.1)).err = some .permission) →
      (rootItems contents locs).err = none ∧
      ∀ le ∈ locs, (rstripSlash le.1, le.2) ∈ (rootItems contents locs).items) ∧
    (∀ pre le post e, locs = pre ++ le :: post →
      (∀ q ∈ pre, (contents (rstripSlash q.1)).err = none ∨
        (contents (rstripSlash q.1)).err = some .permission) →
      (contents (rstripSlash le.1)).err = some e → e ≠ .permission →
      (rootItems contents locs).err = some e ∧
      (rstripSlash le.1, le.2) ∈ (rootItems contents locs).items) := by
  constructor
  · exact rootItems_ok contents locs
  · intro pre le post e hl hpre hge hne
    rw [hl]
    exact rootItems_err contents pre le post e hpre hge hne

/-- C6 witness: a permission failure on locator a is swallowed and the
listing over locators a, b completes; a Not-Found failure on locator c
propagates. -/
theorem C6_witness :
    (rootItems c6contents [(s2l "a", []), (s2l "b", [])]).err = none ∧
    (rootItems c6contents [(s2l "b", []), (s2l "c", [])]).err = some .notFound := by
  constructor
  · exact ((C6_root_listing c6contents [(s2l "a", []), (s2l "b", [])]).1 (by decide)).1
  · exact ((C6_root_listing c6contents [(s2l "b", []), (s2l "c", [])]).2
      [(s2l "b", [])] (s2l "c", []) [] .notFound rfl (by decide) (by decide)
      (by decide)).1

-- Helper lemmas about the stat extractor loop.

theorem statStep_fst_self (key : Str) (keys : List Str) (sh : List (Str × Int) × Header) :
    odGet key (statStep key keys sh).1 =
      (match extractField keys sh.2 with
        | .ok p => p.1
        | .error _ => odGet key sh.1) := by
  unfold statStep
  cases hx : extractField keys sh.2 with
  | ok p => exact odGet_odSet_self key p.1 sh.1
  | error e => rfl

theorem statStep_fst_ne (k key : Str) (keys : List Str) (sh : List (Str × Int) × Header)
    (h : k ≠ key) : odGet k (statStep key keys sh).1 = odGet k sh.1 := by
  unfold statStep
  cases hx : extractField keys sh.2 with
  | ok p => exact odGet_odSet_ne k key h p.1 sh.1
  | error e => rfl

theorem statStep_snd_subset (key : Str) (keys : List Str) (sh : List (Str × Int) × Header) :
    ∀ kv ∈ (statStep key keys sh).2, kv ∈ sh.2 := by
  unfold statStep
  cases hx : extractField keys sh.2 with
  | ok p => exact fun kv hkv => extractField_subset keys sh.2 p.1 p.2 (by rw [hx]) kv hkv
  | error e => exact fun kv hkv => hkv

theorem statStep_keys_mem (key : Str) (keys : List Str) (sh : List (Str × Int) × Header)
    (h : key ∈ sh.1.map Prod.fst) :
    (statStep key keys sh).1.map Prod.fst = sh.1.map Prod.fst := by
  unfold statStep
  cases hx : extractField keys sh.2 with
  | ok p => exact odSet_keys_mem key p.1 sh.1 h
  | error e => rfl

theorem statFields_size (sk ck mk : List Str) (header : Header) :
    odGet (s2l "st_size") (statFields sk ck mk header).1 = sizeRes sk header := by
  unfold statFields
  rw [statStep_fst_ne _ _ _ _ (by decide), statStep_fst_ne _ _ _ _ (by decide),
    statStep_fst_self]
  cases hx : extractField sk header with
  | ok p => simp [sizeRes, hx]
  | error e =>
    simp only [sizeRes, hx]
    decide

theorem statFields_keys (sk ck mk : List Str) (header : Header) :
    (statFields sk ck mk header).1.map Prod.fst = statNames := by
  have h1 : (statStep (s2l "st_size") sk (statInit, header)).1.map Prod.fst = statNames := by
    rw [statStep_keys_mem _ _ _
      (by exact (by decide : s2l "st_size" ∈ statInit.map Prod.fst))]
    exact (by decide : statInit.map Prod.fst = statNames)
  have h2 : (statStep (s2l "st_ctime") ck
      (statStep (s2l "st_size") sk (statInit, header))).1.map Prod.fst = statNames := by
    rw [statStep_keys_mem _ _ _ (by rw [h1]; decide)]
    exact h1
  unfold statFields
  rw [statStep_keys_mem _ _ _ (by rw [h2]; decide)]
  exact h2

theorem statFields_snd_subset (sk ck mk : List Str) (header : Header) :
    ∀ kv ∈ (statFields sk ck mk header).2, kv ∈ header := by
  intro kv hkv
  unfold statFields at hkv
  exact statStep_snd_subset _ _ _ _
    (statStep_snd_subset _ _ _ _ (statStep_snd_subset _ _ _ kv hkv))

theorem statBase_mode (roots : List Root) (sk ck mk : List Str) (path : Str)
    (header : Header) :
    odGet (s2l "st_mode") (statBase roots sk ck mk path header).1 =
      (if (path.isEmpty || endsWithSlash path || is_locator roots path false)
          && (sizeRes sk header == 0) then S_IFDIR else S_IFREG) := by
  unfold statBase
  dsimp only
  rw [odGet_odSet_self, statFields_size]

theorem statBase_keys (roots : List Root) (sk ck mk : List Str) (path : Str)
    (header : Header) :
    (statBase roots sk ck mk path header).1.map Prod.fst = statNames := by
  unfold statBase
  dsimp only
  rw [odSet_keys_mem _ _ _ (by rw [statFields_keys]; decide)]
  exact statFields_keys sk ck mk header

theorem stat_mode_of_no_collision (roots : List Root) (sk ck mk : List Str)
    (path : Str) (header : Header)
    (hcol : ∀ kv ∈ header, normalizeKey kv.1 ≠ s2l "mode") :
    odGet (s2l "st_mode") (stat roots sk ck mk path header) =
      odGet (s2l "st_mode") (statBase roots sk ck mk path header).1 := by
  unfold stat
  dsimp only
  apply odGet_foldl_ne (fun k => s2l "st_" ++ normalizeKey k)
  intro kv hkv heq
  apply hcol kv (statFields_snd_subset sk ck mk header kv hkv)
  have hsplit : s2l "st_" ++ normalizeKey kv.1 = s2l "st_" ++ s2l "mode" := by
    rw [heq]
    decide
  exact List.append_cancel_left hsplit

-- Claim C2 (corrected).

/-- C2 counterexample: for a path ending in a separator whose header
resolves the size to 0 (Content-Length present and equal to 0), the
claim requires regular-file mode ("directory iff no size was resolved
and ..."), but stat reports directory mode: the code tests the st_size
value, not whether a size was resolved. -/
theorem C2_counterexample :
    extractField SIZE_KEYS [(s2l "Content-Length", 0)] = .ok (0, []) ∧
    endsWithSlash (s2l "s3://b/d/") = true ∧
    odGet (s2l "st_mode")
      (stat [Root.lit (s2l "s3://")] SIZE_KEYS CTIME_KEYS MTIME_KEYS
        (s2l "s3://b/d/") [(s2l "Content-Length", 0)]) = S_IFDIR ∧
    S_IFDIR ≠ S_IFREG := by decide

/-- C2 (amended): the stat result has directory mode iff the st_size
value at the mode decision — the size resolved from the header, or the 0
default when none was resolved — is zero AND the path is empty, ends in
a separator, or is a locator; in every other case it has regular-file
mode (provided no remaining header key republishes onto st_mode). -/
theorem C2_stat_mode (roots : List Root) (sk ck mk : List Str) (path : Str)
    (header : Header)
    (hcol : ∀ kv ∈ header, normalizeKey kv.1 ≠ s2l "mode") :
    (odGet (s2l "st_mode") (stat roots sk ck mk path header) = S_IFDIR ↔
      (sizeRes sk header = 0 ∧
        (path.isEmpty = true ∨ endsWithSlash path = true ∨
          is_locator roots path false = true))) ∧
    (odGet (s2l "st_mode") (stat roots sk ck mk path header) = S_IFDIR ∨
      odGet (s2l "st_mode") (stat roots sk ck mk path header) = S_IFREG) := by
  have hmode : odGet (s2l "st_mode") (stat roots sk ck mk path header) =
      (if (path.isEmpty || endsWithSlash path || is_locator roots path false)
          && (sizeRes sk header == 0) then S_IFDIR else S_IFREG) := by
    rw [stat_mode_of_no_collision roots sk ck mk path header hcol,
      statBase_mode roots sk ck mk path header]
  rw [hmode]
  by_cases hcond : ((path.isEmpty || endsWithSlash path || is_locator roots path false)
      && (sizeRes sk header == 0)) = true
  · rw [if_pos hcond]
    simp only [Bool.and_eq_true, Bool.or_eq_true, beq_iff_eq, or_assoc] at hcond
    exact ⟨⟨fun _ => ⟨hcond.2, hcond.1⟩, fun _ => rfl⟩, Or.inl rfl⟩
  · rw [if_neg hcond]
    refine ⟨⟨fun hd => absurd hd (by decide), fun hr => ?_⟩, Or.inr rfl⟩
    exfalso
    apply hcond
    simp only [Bool.and_eq_true, Bool.or_eq_true, beq_iff_eq, or_assoc]
    exact ⟨hr.2, hr.1⟩

/-- C2 witness: an empty header on a separator-terminated path gives
directory mode; a header resolving size 5 on a key path gives
regular-file mode. -/
theorem C2_witness :
    odGet (s2l "st_mode")
      (stat [Root.lit (s2l "s3://")] SIZE_KEYS CTIME_KEYS MTIME_KEYS
        (s2l "s3://b/d/") []) = S_IFDIR ∧
    odGet (s2l "st_mode")
      (stat [Root.lit (s2l "s3://")] SIZE_KEYS CTIME_KEYS MTIME_KEYS
        (s2l "s3://b/k") [(s2l "Content-Length", 5)]) = S_IFREG := by
  constructor
  · exact ((C2_stat_mode [Root.lit (s2l "s3://")] SIZE_KEYS CTIME_KEYS MTIME_KEYS
      (s2l "s3://b/d/") [] (by decide)).1).mpr (by decide)
  · have h := C2_stat_mode [Root.lit (s2l "s3://")] SIZE_KEYS CTIME_KEYS MTIME_KEYS
      (s2l "s3://b/k") [(s2l "Content-Length", 5)] (by decide)
    cases h.2 with
    | inl hd => exact absurd (h.1.mp hd) (by decide)
    | inr hr => exact hr

-- Claim C10 (confirmed).

/-- C10: stat is total over headers missing any or all of the standard
size/ctime/mtime fields — every Unsupported raised by a field extractor
is caught internally, the corresponding field keeps its 0 default, and
the returned structure always carries the ten standard POSIX fields as
its first ten keys, in order. -/
theorem C10_stat_total (roots : List Root) (sk ck mk : List Str) (path : Str)
    (header : Header) :
    (∃ ext, (stat roots sk ck mk path header).map Prod.fst = statNames ++ ext) ∧
    (extractField sk header = .error .unsupported →
      odGet (s2l "st_size") (statBase roots sk ck mk path header).1 = 0) ∧
    (extractField ck (statStep (s2l "st_size") sk (statInit, header)).2 =
        .error .unsupported →
      odGet (s2l "st_ctime") (statBase roots sk ck mk path header).1 = 0) ∧
    (extractField mk (statStep (s2l "st_ctime") ck
        (statStep (s2l "st_size") sk (statInit, header))).2 = .error .unsupported →
      odGet (s2l "st_mtime") (statBase roots sk ck mk path header).1 = 0) := by
  refine ⟨?_, ?_, ?_, ?_⟩
  · obtain ⟨extk, hk⟩ := keys_foldl_ext (fun k => s2l "st_" ++ normalizeKey k)
      (statBase roots sk ck mk path header).2 (statBase roots sk ck mk path header).1
    refine ⟨extk, ?_⟩
    unfold stat
    dsimp only
    rw [hk, statBase_keys]
  · intro hx
    unfold statBase
    dsimp only
    rw [odGet_odSet_ne _ _ (by decide) _ _, statFields_size]
    unfold sizeRes
    rw [hx]
  · intro hx
    unfold statBase
    dsimp only
    rw [odGet_odSet_ne _ _ (by decide) _ _]
    unfold statFields
    rw [statStep_fst_ne _ _ _ _ (by decide), statStep_fst_self, hx]
    rw [statStep_fst_ne _ _ _ _ (by decide)]
    exact (by decide : odGet (s2l "st_ctime") statInit = 0)
  · intro hx
    unfold statBase
    dsimp only
    rw [odGet_odSet_ne _ _ (by decide) _ _]
    unfold statFields
    rw [statStep_fst_self, hx]
    rw [statStep_fst_ne _ _ _ _ (by decide), statStep_fst_ne _ _ _ _ (by decide)]
    exact (by decide : odGet (s2l "st_mtime") statInit = 0)

/-- C10 witness: with an empty header every extractor is Unsupported,
the three fields keep their 0 default, and the ten standard fields
remain the leading keys. -/
theorem C10_witness :
    (∃ ext, (stat [Root.lit (s2l "s3://")] SIZE_KEYS CTIME_KEYS MTIME_KEYS
      (s2l "s3://b/k") []).map Prod.fst = statNames ++ ext) ∧
    odGet (s2l "st_size") (statBase [Root.lit (s2l "s3://")] SIZE_KEYS CTIME_KEYS
      MTIME_KEYS (s2l "s3://b/k") []).1 = 0 ∧
    odGet (s2l "st_ctime") (statBase [Root.lit (s2l "s3://")] SIZE_KEYS CTIME_KEYS
      MTIME_KEYS (s2l "s3://b/k") []).1 = 0 ∧
    odGet (s2l "st_mtime") (statBase [Root.lit (s2l "s3://")] SIZE_KEYS CTIME_KEYS
      MTIME_KEYS (s2l "s3://b/k") []).1 = 0 := by
  have h := C10_stat_total [Root.lit (s2l "s3://")] SIZE_KEYS CTIME_KEYS MTIME_KEYS
    (s2l "s3://b/k") []
  exact ⟨h.1, h.2.1 (by decide), h.2.2.1 (by decide), h.2.2.2 (by decide)⟩

-- Helper lemmas about isdir.

theorem isdir_root (sys : Sys) (path : Str) (h : relpath sys.roots path = []) :
    isdir sys path true = .ok true := by
  simp [isdir, h]

theorem isdir_exists (sys : Sys) (path : Str) (h1 : relpath sys.roots path ≠ [])
    (h2 : endsWithSlash path = true ∨
      is_locator sys.roots (relpath sys.roots path) true = true)
    (h3 : existsOp sys path = .ok true) :
    isdir sys path true = .ok true := by
  cases hrel : relpath sys.roots path with
  | nil => exact absurd hrel h1
  | cons c cs =>
    rw [hrel] at h2
    have hor : (endsWithSlash path || is_locator sys.roots (c :: cs) true) = true := by
      cases h2 with
      | inl he => simp [he]
      | inr hl => simp [hl]
    simp [isdir, hrel, hor, h3]

theorem isdir_fallback (sys : Sys) (path rel : Str)
    (hrel : relpath sys.roots path = rel) (h1 : rel ≠ [])
    (h2 : endsWithSlash path = true ∨ is_locator sys.roots rel true = true)
    (h3 : existsOp sys path = .ok false) :
    isdir sys path true =
      (match probeFirst sys rel with
        | .ok (some _) => .ok true
        | .ok none => .ok false
        | .error .notFound => .ok false
        | .error .unsupported => .ok false
        | .error e => .error e) := by
  cases hc : rel with
  | nil => exact absurd hc h1
  | cons c cs =>
    rw [hc] at hrel h2
    have hor : (endsWithSlash path || is_locator sys.roots (c :: cs) true) = true := by
      cases h2 with
      | inl he => simp [he]
      | inr hl => simp [hl]
    simp [isdir, hrel, hor, h3]

theorem list_objects_storeSys (roots : List Root) (locators : List Str)
    (keys : List (Str × Str × Header)) (rel : Str) (hne : rel.isEmpty = false) :
    list_objects (storeSys roots locators keys) rel true false (some 1) =
      ⟨subItems (split_locator roots rel).2 false
        (((keysOf keys (split_locator roots rel).1).filter
          (fun kh => (split_locator roots rel).2.isPrefixOf kh.1)).take 1) [], none⟩ := by
  simp only [list_objects, storeSys, hne, if_true, if_false, Bool.false_eq_true]

theorem probeFirst_storeSys (roots : List Root) (locators : List Str)
    (keys : List (Str × Str × Header)) (rel : Str) (hrel : rel ≠ []) :
    probeFirst (storeSys roots locators keys) rel =
      (match subItems (split_locator roots rel).2 false
          (((keysOf keys (split_locator roots rel).1).filter
            (fun kh => (split_locator roots rel).2.isPrefixOf kh.1)).take 1) [] with
        | [] => .ok none
        | a :: _ => .ok (some a)) := by
  have hne : rel.isEmpty = false := by
    cases rel with
    | nil => exact absurd rfl hrel
    | cons c cs => rfl
  unfold probeFirst
  rw [list_objects_storeSys roots locators keys rel hne]
  cases hsub : subItems (split_locator roots rel).2 false
      (((keysOf keys (split_locator roots rel).1).filter
        (fun kh => (split_locator roots rel).2.isPrefixOf kh.1)).take 1) [] with
  | nil => rfl
  | cons a t => rfl

theorem isdir_probe_empty (roots : List Root) (locators : List Str)
    (keys : List (Str × Str × Header)) (path : Str)
    (h1 : relpath roots path ≠ [])
    (h2 : endsWithSlash path = true ∨
      is_locator roots (relpath roots path) true = true)
    (h3 : existsOp (storeSys roots locators keys) path = .ok false)
    (h4 : (keysOf keys (split_locator roots (relpath roots path)).1).filter
        (fun kh => (split_locator roots (relpath roots path)).2.isPrefixOf kh.1) = []) :
    isdir (storeSys roots locators keys) path true = .ok false := by
  rw [isdir_fallback (storeSys roots locators keys) path (relpath roots path) rfl h1 h2 h3]
  rw [probeFirst_storeSys roots locators keys (relpath roots path) h1]
  rw [h4]
  rfl

theorem isdir_probe_hit (roots : List Root) (locators : List Str)
    (keys : List (Str × Str × Header)) (path : Str) (k0 : Str × Header)
    (t : List (Str × Header))
    (h1 : relpath roots path ≠ [])
    (h2 : endsWithSlash path = true ∨
      is_locator roots (relpath roots path) true = true)
    (h3 : existsOp (storeSys roots locators keys) path = .ok false)
    (h4 : (keysOf keys (split_locator roots (relpath roots path)).1).filter
        (fun kh => (split_locator roots (relpath roots path)).2.isPrefixOf kh.1) = k0 :: t)
    (h5 : remAfter (split_locator roots (relpath roots path)).2 k0.1 ≠ []) :
    isdir (storeSys roots locators keys) path true = .ok true := by
  have hpre : (split_locator roots (relpath roots path)).2.isPrefixOf k0.1 = true := by
    have hmem : k0 ∈ (keysOf keys (split_locator roots (relpath roots path)).1).filter
        (fun kh => (split_locator roots (relpath roots path)).2.isPrefixOf kh.1) := by
      rw [h4]
      exact List.mem_cons_self _ _
    exact (List.mem_filter.mp hmem).2
  have hstrip : stripStep (split_locator roots (relpath roots path)).2 k0.1 =
      some (remAfter (split_locator roots (relpath roots path)).2 k0.1) := by
    unfold stripStep remAfter
    by_cases ht : (split_locator roots (relpath roots path)).2.isEmpty
    · rw [if_pos ht, if_pos ht]
    · rw [if_neg ht, if_neg ht]
      have htail : (split_locator roots (relpath roots path)).2 ≠ [] := by
        intro h0
        rw [h0] at ht
        exact ht rfl
      rw [splitFirst_of_isPre _ _ htail hpre]
  have h5' : (remAfter (split_locator roots (relpath roots path)).2 k0.1).isEmpty = false := by
    cases hr : remAfter (split_locator roots (relpath roots path)).2 k0.1 with
    | nil => exact absurd hr h5
    | cons c cs => rfl
  have hsub : subItems (split_locator roots (relpath roots path)).2 false [k0] [] =
      [(remAfter (split_locator roots (relpath roots path)).2 k0.1, k0.2)] := by
    obtain ⟨k0n, k0h⟩ := k0
    simp only [subItems, hstrip, h5', Bool.false_eq_true, if_false]
  rw [isdir_fallback (storeSys roots locators keys) path (relpath roots path) rfl h1 h2 h3]
  rw [probeFirst_storeSys roots locators keys (relpath roots path) h1]
  rw [h4]
  have htake : (k0 :: t).take 1 = [k0] := by simp
  rw [htake, hsub]

theorem stripStep_of_isPre (tail k : Str) (hpre : tail.isPrefixOf k = true) :
    stripStep tail k = some (remAfter tail k) := by
  unfold stripStep remAfter
  by_cases ht : tail.isEmpty
  · rw [if_pos ht, if_pos ht]
  · rw [if_neg ht, if_neg ht]
    have htail : tail ≠ [] := by
      intro h0
      rw [h0] at ht
      exact ht rfl
    rw [splitFirst_of_isPre _ _ htail hpre]

theorem isdir_probe_skip (roots : List Root) (locators : List Str)
    (keys : List (Str × Str × Header)) (path : Str) (k0 : Str × Header)
    (t : List (Str × Header))
    (h1 : relpath roots path ≠ [])
    (h2 : endsWithSlash path = true ∨
      is_locator roots (relpath roots path) true = true)
    (h3 : existsOp (storeSys roots locators keys) path = .ok false)
    (h4 : (keysOf keys (split_locator roots (relpath roots path)).1).filter
        (fun kh => (split_locator roots (relpath roots path)).2.isPrefixOf kh.1) = k0 :: t)
    (h5 : remAfter (split_locator roots (relpath roots path)).2 k0.1 = []) :
    isdir (storeSys roots locators keys) path true = .ok false := by
  have hpre : (split_locator roots (relpath roots path)).2.isPrefixOf k0.1 = true := by
    have hmem : k0 ∈ (keysOf keys (split_locator roots (relpath roots path)).1).filter
        (fun kh => (split_locator roots (relpath roots path)).2.isPrefixOf kh.1) := by
      rw [h4]
      exact List.mem_cons_self _ _
    exact (List.mem_filter.mp hmem).2
  have hstrip := stripStep_of_isPre (split_locator roots (relpath roots path)).2 k0.1 hpre
  have hsub : subItems (split_locator roots (relpath roots path)).2 false [k0] [] = [] := by
    obtain ⟨k0n, k0h⟩ := k0
    simp [subItems, hstrip, h5]
  rw [isdir_fallback (storeSys roots locators keys) path (relpath roots path) rfl h1 h2 h3]
  rw [probeFirst_storeSys roots locators keys (relpath roots path) h1]
  rw [h4]
  have htake : (k0 :: t).take 1 = [k0] := by simp
  rw [htake, hsub]

theorem isdir_probe_err (sys : Sys) (path : Str)
    (h1 : relpath sys.roots path ≠ [])
    (h2 : endsWithSlash path = true ∨
      is_locator sys.roots (relpath sys.roots path) true = true)
    (h3 : existsOp sys path = .ok false)
    (h4 : probeFirst sys (relpath sys.roots path) = .error .notFound ∨
      probeFirst sys (relpath sys.roots path) = .error .unsupported) :
    isdir sys path true = .ok false := by
  rw [isdir_fallback sys path (relpath sys.roots path) rfl h1 h2 h3]
  cases h4 with
  | inl h => rw [h]
  | inr h => rw [h]

-- Claim C3 (corrected).

/-- C3 counterexample: in a store whose only key is dir// (under
locator b), the path s3://b/dir/ is non-root and ends in a separator,
the explicit existence check fails, and a backend entry has the listed
path dir/ as a prefix — so the claim requires isdir to be true — yet
the probe strips the entry to an empty remainder, skips it, yields
nothing, and isdir is false. -/
theorem C3_counterexample :
    existsOp (storeSys [Root.lit (s2l "s3://")] [s2l "b"] [(s2l "b", s2l "dir//", [])])
      (s2l "s3://b/dir/") = .ok false ∧
    endsWithSlash (s2l "s3://b/dir/") = true ∧
    relpath [Root.lit (s2l "s3://")] (s2l "s3://b/dir/") ≠ [] ∧
    (s2l "dir//") ∈ (keysOf [(s2l "b", s2l "dir//", [])]
        (split_locator [Root.lit (s2l "s3://")]
          (relpath [Root.lit (s2l "s3://")] (s2l "s3://b/dir/"))).1).map Prod.fst ∧
    (split_locator [Root.lit (s2l "s3://")]
        (relpath [Root.lit (s2l "s3://")] (s2l "s3://b/dir/"))).2.isPrefixOf
      (s2l "dir//") = true ∧
    isdir (storeSys [Root.lit (s2l "s3://")] [s2l "b"] [(s2l "b", s2l "dir//", [])])
      (s2l "s3://b/dir/") true = .ok false := by decide

/-- C3 (amended): isdir of the root (empty relative path) is always
true; for a non-root path ending in a separator or naming a locator,
isdir is true when the explicit existence check succeeds, and otherwise
falls back to a listing probe bounded to one entry: over a flat-key
store the probe yields false when no backend key has the listed tail as
a prefix, true when the first such key keeps a non-empty remainder
after prefix-stripping, and false when that remainder is empty (the
entry is skipped as a parent marker); a probe failing with
Not-Found or Unsupported yields false on any system; in particular
with only key dir/file.txt present, isdir of b/dir/ is true and isdir
of a prefix matching nothing is false. -/
theorem C3_isdir :
    (∀ sys path, relpath sys.roots path = [] → isdir sys path true = .ok true) ∧
    (∀ sys path, relpath sys.roots path ≠ [] →
      (endsWithSlash path = true ∨
        is_locator sys.roots (relpath sys.roots path) true = true) →
      existsOp sys path = .ok true → isdir sys path true = .ok true) ∧
    (∀ roots locators keys path,
      relpath roots path ≠ [] →
      (endsWithSlash path = true ∨
        is_locator roots (relpath roots path) true = true) →
      existsOp (storeSys roots locators keys) path = .ok false →
      (keysOf keys (split_locator roots (relpath roots path)).1).filter
        (fun kh => (split_locator roots (relpath roots path)).2.isPrefixOf kh.1) = [] →
      isdir (storeSys roots locators keys) path true = .ok false) ∧
    (∀ roots locators keys path k0 t,
      relpath roots path ≠ [] →
      (endsWithSlash path = true ∨
        is_locator roots (relpath roots path) true = true) →
      existsOp (storeSys roots locators keys) path = .ok false →
      (keysOf keys (split_locator roots (relpath roots path)).1).filter
        (fun kh => (split_locator roots (relpath roots path)).2.isPrefixOf kh.1) =
        k0 :: t →
      remAfter (split_locator roots (relpath roots path)).2 k0.1 ≠ [] →
      isdir (storeSys roots locators keys) path true = .ok true) ∧
    (∀ roots locators keys path k0 t,
      relpath roots path ≠ [] →
      (endsWithSlash path = true ∨
        is_locator roots (relpath roots path) true = true) →
      existsOp (storeSys roots locators keys) path = .ok false →
      (keysOf keys (split_locator roots (relpath roots path)).1).filter
        (fun kh => (split_locator roots (relpath roots path)).2.isPrefixOf kh.1) =
        k0 :: t →
      remAfter (split_locator roots (relpath roots path)).2 k0.1 = [] →
      isdir (storeSys roots locators keys) path true = .ok false) ∧
    (∀ sys path, relpath sys.roots path ≠ [] →
      (endsWithSlash path = true ∨
        is_locator sys.roots (relpath sys.roots path) true = true) →
      existsOp sys path = .ok false →
      (probeFirst sys (relpath sys.roots path) = .error .notFound ∨
        probeFirst sys (relpath sys.roots path) = .error .unsupported) →
      isdir sys path true = .ok false) ∧
    (isdir (storeSys [Root.lit (s2l "s3://")] [s2l "b"]
        [(s2l "b", s2l "dir/file.txt", [])]) (s2l "s3://b/dir/") true = .ok true ∧
      isdir (storeSys [Root.lit (s2l "s3://")] [s2l "b"]
        [(s2l "b", s2l "dir/file.txt", [])]) (s2l "s3://b/dir/nonexist/") true =
        .ok false) :=
  ⟨isdir_root, isdir_exists, isdir_probe_empty, isdir_probe_hit, isdir_probe_skip,
    isdir_probe_err, by decide, by decide⟩

/-- C3 witness: the six conditional parts applied at concrete systems —
the storage root, an existing locator, a prefix with no matching key, a
virtual directory inferred from key dir/file.txt, a skipped
separator-only remainder (key dir//), and probes failing with Not-Found
and with Unsupported. -/
theorem C3_witness :
    isdir (storeSys [Root.lit (s2l "s3://")] [] []) (s2l "s3://") true = .ok true ∧
    isdir (storeSys [Root.lit (s2l "s3://")] [s2l "b"] []) (s2l "s3://b") true =
      .ok true ∧
    isdir (storeSys [Root.lit (s2l "s3://")] [s2l "b"] [(s2l "b", s2l "x", [])])
      (s2l "s3://b/dir/") true = .ok false ∧
    isdir (storeSys [Root.lit (s2l "s3://")] [s2l "b"]
      [(s2l "b", s2l "dir/file.txt", [])]) (s2l "s3://b/dir/") true = .ok true ∧
    isdir (storeSys [Root.lit (s2l "s3://")] [s2l "b"] [(s2l "b", s2l "dir//", [])])
      (s2l "s3://b/dir/") true = .ok false ∧
    isdir (probeFailSys .notFound) (s2l "s3://b/d/") true = .ok false ∧
    isdir (probeFailSys .unsupported) (s2l "s3://b/d/") true = .ok false := by
  refine ⟨?_, ?_, ?_, ?_, ?_, ?_, ?_⟩
  · exact C3_isdir.1 _ _ (by decide)
  · exact C3_isdir.2.1 (storeSys [Root.lit (s2l "s3://")] [s2l "b"] [])
      (s2l "s3://b") (by decide) (by decide) (by decide)
  · exact C3_isdir.2.2.1 [Root.lit (s2l "s3://")] [s2l "b"] [(s2l "b", s2l "x", [])]
      (s2l "s3://b/dir/") (by decide) (by decide) (by decide) (by decide)
  · exact C3_isdir.2.2.2.1 [Root.lit (s2l "s3://")] [s2l "b"]
      [(s2l "b", s2l "dir/file.txt", [])] (s2l "s3://b/dir/")
      (s2l "dir/file.txt", []) [] (by decide) (by decide) (by decide) (by decide)
      (by decide)
  · exact C3_isdir.2.2.2.2.1 [Root.lit (s2l "s3://")] [s2l "b"]
      [(s2l "b", s2l "dir//", [])] (s2l "s3://b/dir/")
      (s2l "dir//", []) [] (by decide) (by decide) (by decide) (by decide)
      (by decide)
  · exact C3_isdir.2.2.2.2.2.1 (probeFailSys .notFound) (s2l "s3://b/d/")
      (by decide) (by decide) (by decide) (Or.inl (by decide))
  · exact C3_isdir.2.2.2.2.2.1 (probeFailSys .unsupported) (s2l "s3://b/d/")
      (by decide) (by decide) (by decide) (Or.inr (by decide))
